import Mathlib

/-!
A verification development for `newModel.py` of the Nuclei_Classification
repository.

The file shallowly embeds the pieces of the program that carry logic of
their own: the `EarlyStop` callback used by `Model.train` (loss history,
the generalisation-loss and training-progress ratios, and the stopping
decision), the guard around loading pre-existing weights, the history
pickling path, the `AlwaysDropout` layer and its insertion into the
network, and `Model.__copy__`.

Python lists of floats are modelled as `List ℚ`.  Python slicing and
`min` are modelled by `pySlice` and `pyMin`; operations that raise in
Python (`min` of an empty sequence, division by zero) are modelled with
`Option`, where `none` stands for the raised exception.
-/

/-- Python index normalisation for slicing `l[a:b]`: a negative index
counts from the end of the list and is clamped below by `0`; a
non-negative index is clamped above by the length. -/
def pyIdx (n : ℕ) (i : Int) : ℕ :=
  if i < 0 then ((n : Int) + i).toNat else min i.toNat n

/-- Python slice `l[a:b]` with the default step of `1`. -/
def pySlice (l : List ℚ) (a b : Int) : List ℚ :=
  (l.take (pyIdx l.length b)).drop (pyIdx l.length a)

/-- Python `min` over a list; `none` models the `ValueError` that Python
raises on an empty sequence. -/
def pyMin : List ℚ → Option ℚ
  | [] => none
  | x :: xs => some (xs.foldl min x)

/-- Python unary minus applied twice, as written verbatim in the source
expression `--(self.batch+1)` (newModel.py line 143). -/
def doubleNeg (i : Int) : Int := -(-i)

/-- The slice `self.train_losses[-(self.batch+1):-1]` (newModel.py line
142), with a single unary minus; this is also the window the
specification ascribes to line 143. -/
def trainWindowSingleNeg (train : List ℚ) (batch : ℕ) : List ℚ :=
  pySlice train (-((batch : Int) + 1)) (-1)

/-- The slice `self.train_losses[--(self.batch+1):-1]` (newModel.py line
143), keeping the doubled unary minus exactly as the source writes it. -/
def trainWindowVerbatim (train : List ℚ) (batch : ℕ) : List ℚ :=
  pySlice train (doubleNeg ((batch : Int) + 1)) (-1)

lemma pyIdx_neg_one (n : ℕ) : pyIdx n (-1) = n - 1 := by
  unfold pyIdx
  rw [if_pos (by omega)]
  omega

lemma pyIdx_zero (n : ℕ) : pyIdx n 0 = 0 := by
  unfold pyIdx
  rw [if_neg (by omega)]
  simp

lemma pyIdx_natCast_add_one (n batch : ℕ) :
    pyIdx n ((batch : Int) + 1) = min (batch + 1) n := by
  unfold pyIdx
  rw [if_neg (by omega)]
  have h : ((batch : Int) + 1).toNat = batch + 1 := by omega
  rw [h]

lemma pyIdx_neg_natCast_add_one (n batch : ℕ) :
    pyIdx n (-((batch : Int) + 1)) = n - (batch + 1) := by
  unfold pyIdx
  rw [if_pos (by omega)]
  omega

/-- The Python slice `l[0:-1]` is the list without its final element. -/
lemma pySlice_zero_negOne (l : List ℚ) : pySlice l 0 (-1) = l.dropLast := by
  unfold pySlice
  rw [pyIdx_neg_one, pyIdx_zero, List.drop_zero, List.dropLast_eq_take]

lemma trainWindowVerbatim_def (train : List ℚ) (batch : ℕ) :
    trainWindowVerbatim train batch =
      (train.take (train.length - 1)).drop (batch + 1) := by
  unfold trainWindowVerbatim pySlice doubleNeg
  rw [neg_neg, pyIdx_neg_one, pyIdx_natCast_add_one]
  rcases le_or_lt (batch + 1) train.length with h | h
  · rw [min_eq_left h]
  · rw [min_eq_right h.le]
    rw [List.drop_eq_nil_of_le (by simp), List.drop_eq_nil_of_le (by simp; omega)]

lemma trainWindowSingleNeg_def (train : List ℚ) (batch : ℕ) :
    trainWindowSingleNeg train batch =
      (train.take (train.length - 1)).drop (train.length - (batch + 1)) := by
  unfold trainWindowSingleNeg pySlice
  rw [pyIdx_neg_one, pyIdx_neg_natCast_add_one]

/-- C1 (counterexample): with `batch = 2` and eight recorded training
losses, the verbatim slice bound `--(batch+1)` (which Python reads as the
double negation `+(batch+1)`) selects the window `[1, 10, 10, 10]` with
minimum `1`, while the simple negation `-(batch+1)` selects the window
`[10, 10]` with minimum `10`; the two expressions therefore do not
compute the same value. -/
theorem trainWindow_verbatim_ne_singleNeg :
    pyMin (trainWindowVerbatim [10, 10, 10, 1, 10, 10, 10, 10] 2) = some 1 ∧
    pyMin (trainWindowSingleNeg [10, 10, 10, 1, 10, 10, 10, 10] 2) = some 10 ∧
    pyMin (trainWindowVerbatim [10, 10, 10, 1, 10, 10, 10, 10] 2) ≠
      pyMin (trainWindowSingleNeg [10, 10, 10, 1, 10, 10, 10, 10] 2) := by
  refine ⟨by decide, by decide, by decide⟩

/-- C1 (amended): Python reads `--(batch+1)` as double negation, i.e. as
the non-negative index `batch + 1`, so the minimum on line 143 is taken
over `train_losses[batch+1:-1]` — the recorded training losses after the
first `batch + 1` of them and before the latest — not over the most
recent `batch` losses; the two windows coincide when exactly
`2 * (batch + 1)` losses are recorded. -/
theorem trainWindowVerbatim_eq_drop (batch : ℕ) (train : List ℚ) :
    trainWindowVerbatim train batch =
      (train.take (train.length - 1)).drop (batch + 1) ∧
    (train.length = 2 * (batch + 1) →
      trainWindowVerbatim train batch = trainWindowSingleNeg train batch) := by
  refine ⟨trainWindowVerbatim_def train batch, fun h => ?_⟩
  rw [trainWindowVerbatim_def, trainWindowSingleNeg_def]
  have : train.length - (batch + 1) = batch + 1 := by omega
  rw [this]

/-- C1 (witness): the amended statement evaluated at `batch = 1` and four
recorded training losses, where the two windows coincide. -/
theorem trainWindowVerbatim_eq_drop_witness :
    trainWindowVerbatim [1, 2, 3, 4] 1 =
      (List.take (List.length [(1 : ℚ), 2, 3, 4] - 1) [1, 2, 3, 4]).drop 2 ∧
    trainWindowVerbatim [1, 2, 3, 4] 1 = trainWindowSingleNeg [1, 2, 3, 4] 1 := by
  have h := trainWindowVerbatim_eq_drop 1 [1, 2, 3, 4]
  exact ⟨h.1, h.2 (by decide)⟩

lemma foldl_min_le_init (xs : List ℚ) (a : ℚ) : xs.foldl min a ≤ a := by
  induction xs generalizing a with
  | nil => exact le_refl a
  | cons x xs ih => exact le_trans (ih (min a x)) (min_le_left a x)

lemma foldl_min_mem (xs : List ℚ) (a : ℚ) :
    xs.foldl min a = a ∨ xs.foldl min a ∈ xs := by
  induction xs generalizing a with
  | nil => exact Or.inl rfl
  | cons x xs ih =>
    rcases ih (min a x) with h | h
    · rcases min_cases a x with ⟨hm, _⟩ | ⟨hm, _⟩
      · exact Or.inl (by rw [List.foldl_cons, h, hm])
      · exact Or.inr (by rw [List.foldl_cons, h, hm]; exact List.mem_cons_self x xs)
    · exact Or.inr (List.mem_cons_of_mem x h)

lemma foldl_min_le (xs : List ℚ) (a x : ℚ) (hx : x ∈ xs) : xs.foldl min a ≤ x := by
  induction xs generalizing a with
  | nil => cases hx
  | cons y ys ih =>
    rcases List.mem_cons.mp hx with h | h
    · subst h
      exact le_trans (foldl_min_le_init ys (min a x)) (min_le_right a x)
    · exact ih (min a y) h

/-- Python's `min` returns an element of the list. -/
lemma pyMin_mem (l : List ℚ) (m : ℚ) (h : pyMin l = some m) : m ∈ l := by
  cases l with
  | nil => cases h
  | cons x xs =>
    have hm : xs.foldl min x = m := Option.some.inj h
    rcases foldl_min_mem xs x with h' | h'
    · rw [← hm, h']; exact List.mem_cons_self x xs
    · rw [← hm]; exact List.mem_cons_of_mem x h'

/-- Python's `min` is a lower bound of the list. -/
lemma pyMin_le (l : List ℚ) (m : ℚ) (h : pyMin l = some m) :
    ∀ x ∈ l, m ≤ x := by
  cases l with
  | nil => cases h
  | cons y ys =>
    have hm : ys.foldl min y = m := Option.some.inj h
    intro x hx
    rcases List.mem_cons.mp hx with h' | h'
    · rw [← hm, h']; exact foldl_min_le_init ys y
    · rw [← hm]; exact foldl_min_le ys y x h'

lemma pyMin_isSome (l : List ℚ) (h : l ≠ []) : (pyMin l).isSome = true := by
  cases l with
  | nil => exact absurd rfl h
  | cons x xs => rfl

/-- The recorded state of the `EarlyStop` callback (newModel.py lines
120-129) together with the `stop_training` flag the callback sets on the
model.  The wall-clock `start_time` and the logging function play no role
in the stopping decision and are not modelled. -/
structure EarlyStopState where
  val_losses : List ℚ
  train_losses : List ℚ
  min_epochs : ℕ
  batch : ℕ
  target : ℚ
  stop_training : Bool
deriving DecidableEq

/-- Lines 138-139: one validation loss and one training loss are
appended on every call of `on_epoch_end`. -/
def appendLosses (s : EarlyStopState) (vl tl : ℚ) : EarlyStopState :=
  { s with
    val_losses := s.val_losses ++ [vl]
    train_losses := s.train_losses ++ [tl] }

/-- Line 141: `g_loss = 100 * ((val_losses[-1] / min(val_losses[:-1])) - 1)`.
`none` models a raised exception: `min` of an empty slice or division by
zero. -/
def g_loss_of (s : EarlyStopState) : Option ℚ :=
  match s.val_losses.getLast? with
  | none => none
  | some lv =>
    match pyMin (pySlice s.val_losses 0 (-1)) with
    | none => none
    | some mv => if mv = 0 then none else some (100 * (lv / mv - 1))

/-- Lines 142-143:
`t_progress = 1000 * ((sum(train_losses[-(batch+1):-1]) / (2 * min(train_losses[--(batch+1):-1]))) - 1)`,
with the doubled unary minus of line 143 kept verbatim. -/
def t_progress_of (s : EarlyStopState) : Option ℚ :=
  match pyMin (trainWindowVerbatim s.train_losses s.batch) with
  | none => none
  | some mt =>
    if mt = 0 then none
    else some (1000 * ((trainWindowSingleNeg s.train_losses s.batch).sum / (2 * mt) - 1))

/-- Lines 141-144: the two ratios of the stopping decision; their
quotient `g_loss / t_progress` is formed on line 144, so `t_progress = 0`
raises (`none`). -/
def evalDecision (s : EarlyStopState) : Option (ℚ × ℚ) :=
  match g_loss_of s with
  | none => none
  | some g =>
    match t_progress_of s with
    | none => none
    | some t => if t = 0 then none else some (g, t)

/-- Lines 131-147: one call of `EarlyStop.on_epoch_end`.  The returned
`Bool` records whether the guarded stopping evaluation of lines 141-147
was entered; `none` models an uncaught exception (including the
`ZeroDivisionError` of `(epoch + 1) % 0` when `batch = 0`).  Lines
145-147 set `stop_training` exactly when `g_loss / t_progress > target`. -/
def onEpochEnd (s : EarlyStopState) (epoch : ℕ) (vl tl : ℚ) :
    Option (EarlyStopState × Bool) :=
  if s.batch = 0 then none
  else if (epoch + 1) % s.batch = 0 ∧ s.min_epochs ≤ epoch + 1 then
    match evalDecision (appendLosses s vl tl) with
    | none => none
    | some gt =>
      some
        ((if s.target < gt.1 / gt.2 then
            { appendLosses s vl tl with stop_training := true }
          else appendLosses s vl tl), true)
  else some (appendLosses s vl tl, false)

/-- The callback state at the start of `Model.train` (lines 121-129). -/
def initState (min_epochs batch : ℕ) (target : ℚ) : EarlyStopState :=
  ⟨[], [], min_epochs, batch, target, false⟩

/-- Outcome of a training run driven by the framework's fit loop: it
either exhausts its epoch budget, halts because `stop_training` was set
at the end of an epoch, or dies on an uncaught callback exception. -/
inductive RunResult where
  | completed (s : EarlyStopState)
  | stopped (epoch : ℕ) (s : EarlyStopState)
  | error (epoch : ℕ)
deriving DecidableEq

/-- The fit loop: after each epoch the callback runs and the framework
halts if `stop_training` is set.  Each list entry supplies the epoch's
`(val_loss, loss)` pair. -/
def runAux (s : EarlyStopState) (epoch : ℕ) : List (ℚ × ℚ) → RunResult
  | [] => .completed s
  | p :: rest =>
    match onEpochEnd s epoch p.1 p.2 with
    | none => .error epoch
    | some (s', _) =>
      if s'.stop_training then .stopped epoch s' else runAux s' (epoch + 1) rest

/-- A full training run from a fresh callback. -/
def run (min_epochs batch : ℕ) (target : ℚ) (losses : List (ℚ × ℚ)) : RunResult :=
  runAux (initState min_epochs batch target) 0 losses

/-- Iterated `on_epoch_end` calls without the fit loop's halt check;
used to name the callback state reached after a given number of epochs. -/
def iterEpochs (s : EarlyStopState) (epoch : ℕ) : List (ℚ × ℚ) → Option EarlyStopState
  | [] => some s
  | p :: rest =>
    match onEpochEnd s epoch p.1 p.2 with
    | none => none
    | some (s', _) => iterEpochs s' (epoch + 1) rest

lemma appendLosses_min_epochs (s : EarlyStopState) (vl tl : ℚ) :
    (appendLosses s vl tl).min_epochs = s.min_epochs := rfl

lemma appendLosses_batch (s : EarlyStopState) (vl tl : ℚ) :
    (appendLosses s vl tl).batch = s.batch := rfl

lemma appendLosses_target (s : EarlyStopState) (vl tl : ℚ) :
    (appendLosses s vl tl).target = s.target := rfl

lemma appendLosses_stop (s : EarlyStopState) (vl tl : ℚ) :
    (appendLosses s vl tl).stop_training = s.stop_training := rfl

/-- The stopping evaluation reads only the loss histories and the batch
interval, never the `stop_training` flag. -/
lemma evalDecision_set_stop (s : EarlyStopState) (x : Bool) :
    evalDecision { s with stop_training := x } = evalDecision s := rfl

/-- A successful `on_epoch_end` call yields either the appended state or
the appended state with `stop_training` set. -/
lemma onEpochEnd_cases (s : EarlyStopState) (epoch : ℕ) (vl tl : ℚ)
    (s' : EarlyStopState) (fl : Bool)
    (h : onEpochEnd s epoch vl tl = some (s', fl)) :
    s' = appendLosses s vl tl ∨
      s' = { appendLosses s vl tl with stop_training := true } := by
  unfold onEpochEnd at h
  by_cases hb : s.batch = 0
  · rw [if_pos hb] at h; cases h
  · rw [if_neg hb] at h
    by_cases hg : (epoch + 1) % s.batch = 0 ∧ s.min_epochs ≤ epoch + 1
    · rw [if_pos hg] at h
      cases hED : evalDecision (appendLosses s vl tl) with
      | none => rw [hED] at h; cases h
      | some gt =>
        rw [hED] at h
        have h' := (Prod.mk.injEq _ _ _ _).mp (Option.some.inj h)
        by_cases hc : s.target < gt.1 / gt.2
        · rw [if_pos hc] at h'
          exact Or.inr h'.1.symm
        · rw [if_neg hc] at h'
          exact Or.inl h'.1.symm
    · rw [if_neg hg] at h
      have h' := (Prod.mk.injEq _ _ _ _).mp (Option.some.inj h)
      exact Or.inl h'.1.symm

/-- `on_epoch_end` appends exactly one element to each loss history. -/
lemma onEpochEnd_appends (s : EarlyStopState) (epoch : ℕ) (vl tl : ℚ)
    (s' : EarlyStopState) (fl : Bool)
    (h : onEpochEnd s epoch vl tl = some (s', fl)) :
    s'.val_losses = s.val_losses ++ [vl] ∧
      s'.train_losses = s.train_losses ++ [tl] := by
  rcases onEpochEnd_cases s epoch vl tl s' fl h with h' | h' <;> rw [h'] <;>
    exact ⟨rfl, rfl⟩

/-- `on_epoch_end` leaves the configured floor, interval and target
untouched. -/
lemma onEpochEnd_params (s : EarlyStopState) (epoch : ℕ) (vl tl : ℚ)
    (s' : EarlyStopState) (fl : Bool)
    (h : onEpochEnd s epoch vl tl = some (s', fl)) :
    s'.min_epochs = s.min_epochs ∧ s'.batch = s.batch ∧ s'.target = s.target := by
  rcases onEpochEnd_cases s epoch vl tl s' fl h with h' | h' <;> rw [h'] <;>
    exact ⟨rfl, ⟨rfl, rfl⟩⟩

/-- If a successful call sets `stop_training` where it was clear, the
guarded evaluation ran, produced `(g_loss, t_progress)`, and their
quotient exceeded the target. -/
lemma onEpochEnd_stop_set (s : EarlyStopState) (epoch : ℕ) (vl tl : ℚ)
    (s' : EarlyStopState) (fl : Bool)
    (h : onEpochEnd s epoch vl tl = some (s', fl))
    (h0 : s.stop_training = false) (h1 : s'.stop_training = true) :
    ∃ g t, evalDecision (appendLosses s vl tl) = some (g, t) ∧
      s.target < g / t ∧
      s' = { appendLosses s vl tl with stop_training := true } := by
  unfold onEpochEnd at h
  by_cases hb : s.batch = 0
  · rw [if_pos hb] at h; cases h
  · rw [if_neg hb] at h
    by_cases hg : (epoch + 1) % s.batch = 0 ∧ s.min_epochs ≤ epoch + 1
    · rw [if_pos hg] at h
      cases hED : evalDecision (appendLosses s vl tl) with
      | none => rw [hED] at h; cases h
      | some gt =>
        obtain ⟨g, t⟩ := gt
        rw [hED] at h
        have h' := (Prod.mk.injEq _ _ _ _).mp (Option.some.inj h)
        by_cases hc : s.target < g / t
        · rw [if_pos hc] at h'
          exact ⟨g, t, rfl, hc, h'.1.symm⟩
        · rw [if_neg hc] at h'
          rw [← h'.1, appendLosses_stop, h0] at h1
          cases h1
    · rw [if_neg hg] at h
      have h' := (Prod.mk.injEq _ _ _ _).mp (Option.some.inj h)
      rw [← h'.1, appendLosses_stop, h0] at h1
      cases h1

/-- C4: with a non-zero batch interval, a call of `on_epoch_end` enters
the stopping evaluation (either finishing it, flag `true`, or dying in
it, `none`) if and only if `epoch + 1` is a multiple of the interval and
at least the minimum-epoch floor; below the floor the call only appends
the losses and reports that no evaluation took place. -/
theorem evaluation_iff_guard (s : EarlyStopState) (epoch : ℕ) (vl tl : ℚ)
    (hb : s.batch ≠ 0) :
    ((onEpochEnd s epoch vl tl = none ∨
        ∃ s', onEpochEnd s epoch vl tl = some (s', true)) ↔
      ((epoch + 1) % s.batch = 0 ∧ s.min_epochs ≤ epoch + 1)) ∧
    (epoch + 1 < s.min_epochs →
      onEpochEnd s epoch vl tl = some (appendLosses s vl tl, false)) := by
  unfold onEpochEnd
  rw [if_neg hb]
  by_cases hg : (epoch + 1) % s.batch = 0 ∧ s.min_epochs ≤ epoch + 1
  · rw [if_pos hg]
    refine ⟨⟨fun _ => hg, fun _ => ?_⟩, fun hlt => absurd hg.2 (by omega)⟩
    cases hED : evalDecision (appendLosses s vl tl) with
    | none => exact Or.inl rfl
    | some gt => exact Or.inr ⟨_, rfl⟩
  · rw [if_neg hg]
    refine ⟨⟨?_, fun h => absurd h hg⟩, fun _ => rfl⟩
    rintro (h | ⟨s', h⟩)
    · cases h
    · have h' := (Prod.mk.injEq _ _ _ _).mp (Option.some.inj h)
      cases h'.2

/-- C4 (witness): an epoch below the floor (`epoch + 1 = 3 < 5`) only
appends and does not evaluate. -/
theorem evaluation_iff_guard_witness :
    onEpochEnd ⟨[], [], 5, 3, 1, false⟩ 2 1 1 =
      some (appendLosses ⟨[], [], 5, 3, 1, false⟩ 1 1, false) :=
  (evaluation_iff_guard ⟨[], [], 5, 3, 1, false⟩ 2 1 1 (by decide)).2 (by decide)

lemma iterEpochs_lengths :
    ∀ (L : List (ℚ × ℚ)) (s : EarlyStopState) (epoch : ℕ) (s' : EarlyStopState),
      iterEpochs s epoch L = some s' →
      s'.val_losses.length = s.val_losses.length + L.length ∧
        s'.train_losses.length = s.train_losses.length + L.length := by
  intro L
  induction L with
  | nil =>
    intro s epoch s' h
    have := Option.some.inj h
    rw [← this]
    exact ⟨rfl, rfl⟩
  | cons p rest ih =>
    intro s epoch s' h
    unfold iterEpochs at h
    cases hE : onEpochEnd s epoch p.1 p.2 with
    | none => rw [hE] at h; cases h
    | some s1 =>
      rw [hE] at h
      have happ := onEpochEnd_appends s epoch p.1 p.2 s1.1 s1.2 (by rw [hE])
      have hrest := ih s1.1 (epoch + 1) s' h
      constructor
      · rw [hrest.1, happ.1]
        simp
        omega
      · rw [hrest.2, happ.2]
        simp
        omega

/-- C5: every successful `on_epoch_end` call extends each loss history by
exactly its epoch's loss (appending one element, removing none), and a
fresh callback driven through `n` epochs records histories of length
exactly `n`. -/
theorem losses_append_one_per_epoch :
    (∀ (s : EarlyStopState) (epoch : ℕ) (vl tl : ℚ) (s' : EarlyStopState) (fl : Bool),
      onEpochEnd s epoch vl tl = some (s', fl) →
        s'.val_losses = s.val_losses ++ [vl] ∧
        s'.train_losses = s.train_losses ++ [tl]) ∧
    (∀ (m b : ℕ) (tgt : ℚ) (L : List (ℚ × ℚ)) (sN : EarlyStopState),
      iterEpochs (initState m b tgt) 0 L = some sN →
        sN.val_losses.length = L.length ∧ sN.train_losses.length = L.length) := by
  constructor
  · exact onEpochEnd_appends
  · intro m b tgt L sN h
    have := iterEpochs_lengths L (initState m b tgt) 0 sN h
    simpa [initState] using this

/-- C5 (witness): one epoch below the floor appends `0.5` and `0.25`, and
two driven epochs leave histories of length two. -/
theorem losses_append_one_per_epoch_witness :
    ((⟨[1/2], [1/4], 5, 3, 1, false⟩ : EarlyStopState).val_losses =
        (⟨[], [], 5, 3, 1, false⟩ : EarlyStopState).val_losses ++ [1/2] ∧
      (⟨[1/2], [1/4], 5, 3, 1, false⟩ : EarlyStopState).train_losses =
        (⟨[], [], 5, 3, 1, false⟩ : EarlyStopState).train_losses ++ [1/4]) ∧
    ((⟨[1, 2], [3, 4], 5, 3, 1, false⟩ : EarlyStopState).val_losses.length =
        List.length [((1 : ℚ), (3 : ℚ)), (2, 4)] ∧
      (⟨[1, 2], [3, 4], 5, 3, 1, false⟩ : EarlyStopState).train_losses.length =
        List.length [((1 : ℚ), (3 : ℚ)), (2, 4)]) :=
  ⟨losses_append_one_per_epoch.1 ⟨[], [], 5, 3, 1, false⟩ 0 (1/2) (1/4)
      ⟨[1/2], [1/4], 5, 3, 1, false⟩ false
      (by simp [onEpochEnd, appendLosses]),
    losses_append_one_per_epoch.2 5 3 1 [(1, 3), (2, 4)]
      ⟨[1, 2], [3, 4], 5, 3, 1, false⟩
      (by simp [iterEpochs, onEpochEnd, appendLosses, initState])⟩

/-- C2 (counterexample): a run whose validation losses `6,5,4,3,2,1` are
strictly decreasing and positive, yet at the epoch-6 boundary the
generalisation loss is `-50`, the training progress is the *negative*
`-500/21`, their quotient `21/10` exceeds the target `1`, and
`stop_training` is set: with both ratios negative the stopping condition
can fire on a monotonically decreasing validation-loss sequence. -/
theorem decreasing_val_can_stop :
    List.Chain' (· > ·) [(6 : ℚ), 5, 4, 3, 2, 1] ∧
    (∀ x ∈ [(6 : ℚ), 5, 4, 3, 2, 1], 0 < x) ∧
    run 6 3 1 [(6, 1), (5, 1), (4, 1), (3, 1), (2, 21/10), (1, 1)] =
      .stopped 5 ⟨[6, 5, 4, 3, 2, 1], [1, 1, 1, 1, 21/10, 1], 6, 3, 1, true⟩ := by
  refine ⟨?_, ?_, ?_⟩
  · norm_num
  · norm_num
  · norm_num [run, runAux, initState, onEpochEnd, appendLosses, evalDecision,
      g_loss_of, t_progress_of, pyMin, pySlice_zero_negOne, trainWindowVerbatim_def,
      trainWindowSingleNeg_def, min_def]

/-- A successful stopping evaluation decomposes into a successful
`g_loss` computation and a successful non-zero `t_progress` computation. -/
lemma evalDecision_eq_some (s : EarlyStopState) (g t : ℚ)
    (h : evalDecision s = some (g, t)) :
    g_loss_of s = some g ∧ t_progress_of s = some t ∧ t ≠ 0 := by
  unfold evalDecision at h
  cases hgl : g_loss_of s with
  | none => rw [hgl] at h; cases h
  | some g0 =>
    rw [hgl] at h
    cases htp : t_progress_of s with
    | none => rw [htp] at h; cases h
    | some t0 =>
      rw [htp] at h
      have h2 : (if t0 = 0 then (none : Option (ℚ × ℚ)) else some (g0, t0)) =
          some (g, t) := h
      by_cases ht0 : t0 = 0
      · rw [if_pos ht0] at h2; cases h2
      · rw [if_neg ht0] at h2
        obtain ⟨hg', ht'⟩ := (Prod.mk.injEq _ _ _ _).mp (Option.some.inj h2)
        subst hg'
        subst ht'
        exact ⟨rfl, rfl, ht0⟩

/-- The `g_loss` of line 141, evaluated on a freshly appended state:
the latest validation loss is the appended one and the minimum ranges
over the previously recorded ones. -/
lemma g_loss_of_append (s : EarlyStopState) (vl tl g : ℚ)
    (h : g_loss_of (appendLosses s vl tl) = some g) :
    ∃ mv, pyMin s.val_losses = some mv ∧ mv ≠ 0 ∧ g = 100 * (vl / mv - 1) := by
  unfold g_loss_of at h
  have hval : (appendLosses s vl tl).val_losses = s.val_losses ++ [vl] := rfl
  rw [hval, List.getLast?_concat, pySlice_zero_negOne, List.dropLast_concat] at h
  cases hmv : pyMin s.val_losses with
  | none => rw [hmv] at h; cases h
  | some mv =>
    rw [hmv] at h
    have h2 : (if mv = 0 then (none : Option ℚ) else some (100 * (vl / mv - 1))) =
        some g := h
    by_cases hmv0 : mv = 0
    · rw [if_pos hmv0] at h2; cases h2
    · rw [if_neg hmv0] at h2
      exact ⟨mv, rfl, hmv0, (Option.some.inj h2).symm⟩

/-- C2 (amended): at an evaluated epoch boundary whose recorded
validation losses (history plus the newly appended loss) are strictly
decreasing and positive, the generalisation-loss ratio is non-positive;
and provided the training-progress ratio is positive and the target
non-negative, the stopping condition does not fire, so the call leaves
`stop_training` unchanged. -/
theorem decreasing_val_no_stop_of_pos_progress
    (s : EarlyStopState) (epoch : ℕ) (vl tl : ℚ) (s' : EarlyStopState)
    (fl : Bool) (g t : ℚ)
    (hchain : List.Chain' (· > ·) (s.val_losses ++ [vl]))
    (hpos : ∀ x ∈ s.val_losses ++ [vl], 0 < x)
    (htgt : 0 ≤ s.target)
    (hED : evalDecision (appendLosses s vl tl) = some (g, t))
    (ht : 0 < t)
    (hrun : onEpochEnd s epoch vl tl = some (s', fl)) :
    g ≤ 0 ∧ s'.stop_training = s.stop_training := by
  have hg : g ≤ 0 := by
    obtain ⟨hgl, -, -⟩ := evalDecision_eq_some _ g t hED
    obtain ⟨mv, hmv, hmv0, hgval⟩ := g_loss_of_append s vl tl g hgl
    have hmem : mv ∈ s.val_losses := pyMin_mem s.val_losses mv hmv
    have hmvpos : 0 < mv := hpos mv (List.mem_append_left _ hmem)
    have hlt : vl < mv := by
      rw [List.chain'_iff_pairwise] at hchain
      exact (List.pairwise_append.mp hchain).2.2 mv hmem vl
        (List.mem_singleton_self vl)
    have hdiv : vl / mv < 1 := (div_lt_one hmvpos).mpr hlt
    rw [hgval]
    nlinarith
  refine ⟨hg, ?_⟩
  unfold onEpochEnd at hrun
  by_cases hb : s.batch = 0
  · rw [if_pos hb] at hrun; cases hrun
  · rw [if_neg hb] at hrun
    by_cases hgd : (epoch + 1) % s.batch = 0 ∧ s.min_epochs ≤ epoch + 1
    · rw [if_pos hgd, hED] at hrun
      have hrun2 :
          some ((if s.target < g / t then
              { appendLosses s vl tl with stop_training := true }
            else appendLosses s vl tl), true) = some (s', fl) := hrun
      have hdiv : g / t ≤ 0 := div_nonpos_iff.mpr (Or.inr ⟨hg, ht.le⟩)
      have hnc : ¬ s.target < g / t := not_lt.mpr (hdiv.trans htgt)
      rw [if_neg hnc] at hrun2
      have h' := (Prod.mk.injEq _ _ _ _).mp (Option.some.inj hrun2)
      rw [← h'.1, appendLosses_stop]
    · rw [if_neg hgd] at hrun
      have h' := (Prod.mk.injEq _ _ _ _).mp (Option.some.inj hrun)
      rw [← h'.1, appendLosses_stop]

/-- C2 (witness): the amended statement at a concrete boundary with
strictly decreasing positive validation losses `6,5,4,3,2,1`, where the
evaluation yields `g_loss = -50` and `t_progress = 500 > 0` and the flag
stays clear. -/
theorem decreasing_val_no_stop_witness :
    (-50 : ℚ) ≤ 0 ∧
      (appendLosses ⟨[6, 5, 4, 3, 2], [1, 1, 1, 1, 1], 6, 3, 1, false⟩ 1 1).stop_training =
        (⟨[6, 5, 4, 3, 2], [1, 1, 1, 1, 1], 6, 3, 1, false⟩ : EarlyStopState).stop_training :=
  decreasing_val_no_stop_of_pos_progress
    ⟨[6, 5, 4, 3, 2], [1, 1, 1, 1, 1], 6, 3, 1, false⟩ 5 1 1
    (appendLosses ⟨[6, 5, 4, 3, 2], [1, 1, 1, 1, 1], 6, 3, 1, false⟩ 1 1) true
    (-50) 500
    (by norm_num)
    (by norm_num)
    (by norm_num)
    (by norm_num [evalDecision, g_loss_of, t_progress_of, appendLosses, pyMin,
      pySlice_zero_negOne, trainWindowVerbatim_def, trainWindowSingleNeg_def, min_def])
    (by norm_num)
    (by norm_num [onEpochEnd, appendLosses, evalDecision, g_loss_of, t_progress_of,
      pyMin, pySlice_zero_negOne, trainWindowVerbatim_def, trainWindowSingleNeg_def,
      min_def])

lemma iterEpochs_params :
    ∀ (L : List (ℚ × ℚ)) (s : EarlyStopState) (epoch : ℕ) (s' : EarlyStopState),
      iterEpochs s epoch L = some s' →
      s'.min_epochs = s.min_epochs ∧ s'.batch = s.batch ∧ s'.target = s.target := by
  intro L
  induction L with
  | nil =>
    intro s epoch s' h
    rw [← Option.some.inj h]
    exact ⟨rfl, rfl, rfl⟩
  | cons p rest ih =>
    intro s epoch s' h
    unfold iterEpochs at h
    cases hE : onEpochEnd s epoch p.1 p.2 with
    | none => rw [hE] at h; cases h
    | some s1 =>
      obtain ⟨s1, fl1⟩ := s1
      rw [hE] at h
      have h1 := onEpochEnd_params s epoch p.1 p.2 s1 fl1 hE
      have h2 := ih s1 (epoch + 1) s' h
      exact ⟨h2.1.trans h1.1, h2.2.1.trans h1.2.1, h2.2.2.trans h1.2.2⟩


lemma iterEpochs_append_some :
    ∀ (A B : List (ℚ × ℚ)) (s : EarlyStopState) (epoch : ℕ) (s' : EarlyStopState),
      iterEpochs s epoch A = some s' →
      iterEpochs s epoch (A ++ B) = iterEpochs s' (epoch + A.length) B := by
  intro A
  induction A with
  | nil =>
    intro B s epoch s' h
    have hs : s = s' := Option.some.inj h
    subst hs
    simp
  | cons p rest ih =>
    intro B s epoch s' h
    cases hE : onEpochEnd s epoch p.1 p.2 with
    | none =>
      unfold iterEpochs at h
      rw [hE] at h
      cases h
    | some s1 =>
      obtain ⟨s1, fl1⟩ := s1
      have h' : iterEpochs s1 (epoch + 1) rest = some s' := by
        unfold iterEpochs at h
        rw [hE] at h
        exact h
      have hL : iterEpochs s epoch ((p :: rest) ++ B) =
          iterEpochs s1 (epoch + 1) (rest ++ B) := by
        show iterEpochs s epoch (p :: (rest ++ B)) = _
        simp only [iterEpochs, hE]
      rw [hL, ih B s1 (epoch + 1) s' h']
      congr 1
      simp
      omega

lemma runAux_stopped_of :
    ∀ (L : List (ℚ × ℚ)) (s : EarlyStopState) (epoch e : ℕ) (se : EarlyStopState),
      e < L.length →
      (∀ j, j < e →
        Option.any (fun sj => !sj.stop_training)
          (iterEpochs s epoch (L.take (j + 1))) = true) →
      iterEpochs s epoch (L.take (e + 1)) = some se →
      se.stop_training = true →
      runAux s epoch L = .stopped (epoch + e) se := by
  intro L
  induction L with
  | nil =>
    intro s epoch e se hlen
    exact absurd hlen (by simp)
  | cons p rest ih =>
    intro s epoch e se hlen hprev he hstop
    rw [List.take_succ_cons] at he
    cases e with
    | zero =>
      rw [List.take_zero] at he
      unfold iterEpochs at he
      cases hE : onEpochEnd s epoch p.1 p.2 with
      | none => rw [hE] at he; cases he
      | some s1 =>
        obtain ⟨s1, fl1⟩ := s1
        rw [hE] at he
        have hse : s1 = se := Option.some.inj he
        have hrun_eq : runAux s epoch (p :: rest) =
            if s1.stop_training then .stopped epoch s1
            else runAux s1 (epoch + 1) rest := by
          simp only [runAux, hE]
        rw [hrun_eq, hse, hstop]
        simp
    | succ e' =>
      have h0 := hprev 0 (by omega)
      rw [List.take_succ_cons, List.take_zero] at h0
      cases hE : onEpochEnd s epoch p.1 p.2 with
      | none =>
        unfold iterEpochs at h0
        rw [hE] at h0
        cases h0
      | some s1 =>
        obtain ⟨s1, fl1⟩ := s1
        have hstop1 : s1.stop_training = false := by
          unfold iterEpochs at h0
          rw [hE] at h0
          have h0' : (!s1.stop_training) = true := h0
          simpa using h0'
        have he' : iterEpochs s1 (epoch + 1) (rest.take (e' + 1)) = some se := by
          unfold iterEpochs at he
          rw [hE] at he
          exact he
        have hprev' : ∀ j, j < e' →
            Option.any (fun sj => !sj.stop_training)
              (iterEpochs s1 (epoch + 1) (rest.take (j + 1))) = true := by
          intro j hj
          have hpj := hprev (j + 1) (by omega)
          rw [List.take_succ_cons] at hpj
          unfold iterEpochs at hpj
          rw [hE] at hpj
          exact hpj
        have hrest := ih s1 (epoch + 1) e' se (by simp at hlen; omega) hprev' he' hstop
        have hrun_eq : runAux s epoch (p :: rest) =
            if s1.stop_training then .stopped epoch s1
            else runAux s1 (epoch + 1) rest := by
          simp only [runAux, hE]
        rw [hrun_eq, hstop1]
        simp only [Bool.false_eq_true, if_false]
        rw [show epoch + (e' + 1) = epoch + 1 + e' by omega]
        exact hrest

lemma iterEpochs_append_none :
    ∀ (A B : List (ℚ × ℚ)) (s : EarlyStopState) (epoch : ℕ),
      iterEpochs s epoch A = none →
      iterEpochs s epoch (A ++ B) = none := by
  intro A
  induction A with
  | nil =>
    intro B s epoch h
    cases h
  | cons p rest ih =>
    intro B s epoch h
    cases hE : onEpochEnd s epoch p.1 p.2 with
    | none =>
      show iterEpochs s epoch (p :: (rest ++ B)) = none
      simp only [iterEpochs, hE]
    | some s1 =>
      obtain ⟨s1, fl1⟩ := s1
      have h' : iterEpochs s1 (epoch + 1) rest = none := by
        unfold iterEpochs at h
        rw [hE] at h
        exact h
      show iterEpochs s epoch (p :: (rest ++ B)) = none
      simp only [iterEpochs, hE]
      exact ih B s1 (epoch + 1) h'

/-- C3: if every epoch before `e` runs the callback without error and
without raising the stop flag, and the state `se` reached at the end of
epoch `e` has the flag set, then the fit loop halts at exactly epoch `e`
(not earlier, not later) with that state; moreover the evaluation at `e`
produced ratios whose quotient exceeds the target, and whenever the
latest validation loss exceeds the (positive) minimum of the earlier
ones, the generalisation-loss ratio is strictly positive. -/
theorem stop_at_first_trigger
    (m b : ℕ) (tgt : ℚ) (L : List (ℚ × ℚ)) (e : ℕ) (se : EarlyStopState)
    (hlen : e < L.length)
    (hprev : ∀ j, j < e →
      Option.any (fun sj => !sj.stop_training)
        (iterEpochs (initState m b tgt) 0 (L.take (j + 1))) = true)
    (he : iterEpochs (initState m b tgt) 0 (L.take (e + 1)) = some se)
    (hstop : se.stop_training = true) :
    run m b tgt L = .stopped e se ∧
    ∃ g t, evalDecision se = some (g, t) ∧ tgt < g / t ∧
      (∀ lv mv, se.val_losses.getLast? = some lv →
        pyMin (pySlice se.val_losses 0 (-1)) = some mv → 0 < mv → mv < lv →
        0 < g) := by
  constructor
  · have h := runAux_stopped_of L (initState m b tgt) 0 e se hlen hprev he hstop
    simpa [run] using h
  · have htake : L.take (e + 1) = L.take e ++ [L[e]] :=
      (List.take_concat_get' L e hlen).symm
    rw [htake] at he
    cases hpre : iterEpochs (initState m b tgt) 0 (L.take e) with
    | none =>
      rw [iterEpochs_append_none (L.take e) [L[e]] _ 0 hpre] at he
      cases he
    | some sprev =>
      rw [iterEpochs_append_some (L.take e) [L[e]] _ 0 sprev hpre] at he
      have hlen_take : (L.take e).length = e := by
        rw [List.length_take]
        omega
      rw [hlen_take, Nat.zero_add] at he
      have hsf : sprev.stop_training = false := by
        cases e with
        | zero =>
          rw [List.take_zero] at hpre
          have h' : initState m b tgt = sprev := Option.some.inj hpre
          rw [← h']
          rfl
        | succ e' =>
          have h0 := hprev e' (by omega)
          rw [hpre] at h0
          have h0' : (!sprev.stop_training) = true := h0
          simpa using h0'
      unfold iterEpochs at he
      cases hE : onEpochEnd sprev e (L[e]).1 (L[e]).2 with
      | none => rw [hE] at he; cases he
      | some s1 =>
        obtain ⟨s1, fl1⟩ := s1
        rw [hE] at he
        have hse : s1 = se := Option.some.inj he
        rw [hse] at hE
        obtain ⟨g, t, hED, hgt, hform⟩ :=
          onEpochEnd_stop_set sprev e _ _ se fl1 hE hsf hstop
        have hparams := iterEpochs_params (L.take e) (initState m b tgt) 0 sprev hpre
        have htgtp : sprev.target = tgt := hparams.2.2
        have hEDse : evalDecision se = some (g, t) := by
          rw [hform, evalDecision_set_stop]
          exact hED
        refine ⟨g, t, hEDse, by rw [← htgtp]; exact hgt, ?_⟩
        intro lv mv hlv hmv hmvpos hlt
        obtain ⟨hgl, -, -⟩ := evalDecision_eq_some se g t hEDse
        unfold g_loss_of at hgl
        rw [hlv, hmv] at hgl
        have h2 : (if mv = 0 then (none : Option ℚ)
            else some (100 * (lv / mv - 1))) = some g := hgl
        rw [if_neg (ne_of_gt hmvpos)] at h2
        have hgv : 100 * (lv / mv - 1) = g := Option.some.inj h2
        have hone : 1 < lv / mv := (one_lt_div hmvpos).mpr hlt
        nlinarith

/-- C3 (witness): with floor 6, interval 3, target 1, validation losses
`1,1,1,1,1,3` (rising at the end) and training losses `1,1,3/5,1/2,1,1`,
the only evaluated boundary is epoch 6, where `g_loss = 200`,
`t_progress = 50`, their quotient `4` exceeds the target, and the run
stops at exactly that boundary. -/
theorem stop_at_first_trigger_witness :
    run 6 3 1 [(1, 1), (1, 1), (1, 3/5), (1, 1/2), (1, 1), (3, 1)] =
      .stopped 5 ⟨[1, 1, 1, 1, 1, 3], [1, 1, 3/5, 1/2, 1, 1], 6, 3, 1, true⟩ ∧
    ∃ g t,
      evalDecision ⟨[1, 1, 1, 1, 1, 3], [1, 1, 3/5, 1/2, 1, 1], 6, 3, 1, true⟩ =
        some (g, t) ∧
      (1 : ℚ) < g / t ∧
      (∀ lv mv,
        (⟨[1, 1, 1, 1, 1, 3], [1, 1, 3/5, 1/2, 1, 1], 6, 3, 1, true⟩ :
            EarlyStopState).val_losses.getLast? = some lv →
        pyMin (pySlice (⟨[1, 1, 1, 1, 1, 3], [1, 1, 3/5, 1/2, 1, 1], 6, 3, 1,
            true⟩ : EarlyStopState).val_losses 0 (-1)) = some mv →
        0 < mv → mv < lv → 0 < g) :=
  stop_at_first_trigger 6 3 1 [(1, 1), (1, 1), (1, 3/5), (1, 1/2), (1, 1), (3, 1)] 5
    ⟨[1, 1, 1, 1, 1, 3], [1, 1, 3/5, 1/2, 1, 1], 6, 3, 1, true⟩
    (by norm_num)
    (by
      intro j hj
      interval_cases j <;>
        simp [iterEpochs, onEpochEnd, appendLosses, initState, Option.any])
    (by
      norm_num [iterEpochs, onEpochEnd, appendLosses, initState, evalDecision,
        g_loss_of, t_progress_of, pyMin, pySlice_zero_negOne,
        trainWindowVerbatim_def, trainWindowSingleNeg_def, min_def])
    rfl

/-- C9 (counterexample): with batch interval `2` (and floor `0`), the very
first evaluated boundary dies: after two epochs the verbatim window
`train_losses[--(2+1):-1] = train_losses[3:-1]` is empty, `min` of it
raises, and the run ends in an uncaught exception even though
`batch ≥ 2` — so `batch ≥ 2` plus a non-zero `t_progress` does not make
the error branches unreachable. -/
theorem evalDecision_error_with_batch_ge_two :
    run 0 2 1 [(1, 1), (1, 1)] = .error 1 ∧
    trainWindowVerbatim [1, 1] 2 = [] := by
  constructor
  · norm_num [run, runAux, initState, onEpochEnd, appendLosses, evalDecision,
      g_loss_of, t_progress_of, pyMin, pySlice_zero_negOne,
      trainWindowVerbatim_def, trainWindowSingleNeg_def, min_def]
  · rw [trainWindowVerbatim_def]
    rfl

/-- C9 (amended): with exactly one recorded validation loss the `g_loss`
computation raises (`min` over an empty slice), so at least two are
needed; `batch ≥ 2` alone does not rule the errors out (see the
counterexample), but when at least two validation losses and at least
`batch + 3` training losses are recorded and neither window minimum nor
`t_progress` is zero, the whole stopping evaluation succeeds. -/
theorem evalDecision_total_under_preconditions :
    (∀ s : EarlyStopState, s.val_losses.length = 1 → g_loss_of s = none) ∧
    (∀ s : EarlyStopState,
      2 ≤ s.val_losses.length →
      s.batch + 3 ≤ s.train_losses.length →
      pyMin (pySlice s.val_losses 0 (-1)) ≠ some 0 →
      pyMin (trainWindowVerbatim s.train_losses s.batch) ≠ some 0 →
      t_progress_of s ≠ some 0 →
      (evalDecision s).isSome = true) := by
  constructor
  · intro s h1
    obtain ⟨x, hv⟩ : ∃ x, s.val_losses = [x] := by
      cases hv : s.val_losses with
      | nil => rw [hv] at h1; cases h1
      | cons x xs =>
        cases xs with
        | nil => exact ⟨x, rfl⟩
        | cons y ys => rw [hv] at h1; simp at h1
    unfold g_loss_of
    rw [hv, pySlice_zero_negOne]
    simp [pyMin]
  · intro s h1 h2 h3 h4 h5
    have hvne : pySlice s.val_losses 0 (-1) ≠ [] := by
      rw [pySlice_zero_negOne]
      intro hnil
      have hlen := congrArg List.length hnil
      rw [List.length_dropLast] at hlen
      simp at hlen
      omega
    have hlast : ∃ lv, s.val_losses.getLast? = some lv := by
      cases hl : s.val_losses.getLast? with
      | none =>
        rw [List.getLast?_eq_none_iff] at hl
        rw [hl] at h1
        cases h1
      | some lv => exact ⟨lv, rfl⟩
    obtain ⟨lv, hlast⟩ := hlast
    obtain ⟨mv, hmv⟩ := Option.isSome_iff_exists.mp (pyMin_isSome _ hvne)
    have hmv0 : mv ≠ 0 := fun h0 => h3 (h0 ▸ hmv)
    have hg : g_loss_of s = some (100 * (lv / mv - 1)) := by
      simp only [g_loss_of, hlast, hmv]
      rw [if_neg hmv0]
    have htne : trainWindowVerbatim s.train_losses s.batch ≠ [] := by
      rw [trainWindowVerbatim_def]
      intro hnil
      have hlen := congrArg List.length hnil
      rw [List.length_drop, List.length_take] at hlen
      simp at hlen
      omega
    obtain ⟨mt, hmt⟩ := Option.isSome_iff_exists.mp (pyMin_isSome _ htne)
    have hmt0 : mt ≠ 0 := fun h0 => h4 (h0 ▸ hmt)
    have htp : t_progress_of s =
        some (1000 * ((trainWindowSingleNeg s.train_losses s.batch).sum /
          (2 * mt) - 1)) := by
      simp only [t_progress_of, hmt]
      rw [if_neg hmt0]
    have ht0 : 1000 * ((trainWindowSingleNeg s.train_losses s.batch).sum /
        (2 * mt) - 1) ≠ 0 := by
      intro h0
      exact h5 (by rw [htp, h0])
    simp only [evalDecision, hg, htp]
    rw [if_neg ht0]
    rfl

/-- C9 (witness): the amended statement at concrete states — one
validation loss makes `g_loss` raise (batch 1, floor 0), and with two
validation losses, five training losses and batch 2 the evaluation
succeeds. -/
theorem evalDecision_total_witness :
    g_loss_of ⟨[1], [1], 0, 1, 1, false⟩ = none ∧
    (evalDecision ⟨[1, 2], [1, 1, 1, 2, 1], 0, 2, 1, false⟩).isSome = true :=
  ⟨evalDecision_total_under_preconditions.1 ⟨[1], [1], 0, 1, 1, false⟩ rfl,
    evalDecision_total_under_preconditions.2 ⟨[1, 2], [1, 1, 1, 2, 1], 0, 2, 1, false⟩
      (by norm_num) (by norm_num)
      (by norm_num [pyMin, pySlice_zero_negOne])
      (by norm_num [pyMin, trainWindowVerbatim_def])
      (by norm_num [t_progress_of, pyMin, trainWindowVerbatim_def,
        trainWindowSingleNeg_def, min_def])⟩

/-- The layer kinds `create_model` stacks (newModel.py lines 62-100);
only the structure relevant to the claims is recorded. -/
inductive Layer where
  | conv2d (filters : ℕ)
  | batchNorm
  | maxPool
  | alwaysDropout (rate : ℚ)
  | flatten
  | dense (units : ℕ)
  | denseSoftmax (classes : ℕ)
deriving DecidableEq

/-- Result of a dropout layer's `call`: either the framework's dropout
transform was applied to the inputs at the given rate, or the inputs were
returned unchanged. -/
inductive DropoutResult (α : Type) where
  | dropped (inputs : α) (rate : ℚ)
  | unchanged (inputs : α)
deriving DecidableEq

/-- `AlwaysDropout.call` (newModel.py lines 55-60): dropout is applied
whenever `0 < rate < 1`; the `training` flag is accepted but never
consulted, so dropout also runs at inference. -/
def AlwaysDropout.call {α : Type} (rate : ℚ) (inputs : α)
    (training : Option Bool) : DropoutResult α :=
  if 0 < rate ∧ rate < 1 then DropoutResult.dropped inputs rate
  else DropoutResult.unchanged inputs

/-- `Model.create_model` (newModel.py lines 49-110): the fixed layer
stack, with an `AlwaysDropout 0.25` after each block exactly when the
configuration's `bayesian` flag is set. -/
def create_model (bayesian : Bool) (num_classes : ℕ) : List Layer :=
  ([.conv2d 64, .batchNorm, .conv2d 64, .batchNorm, .maxPool] ++
    (if bayesian then [.alwaysDropout (1/4)] else [])) ++
  ([.conv2d 128, .batchNorm, .conv2d 128, .batchNorm, .maxPool] ++
    (if bayesian then [.alwaysDropout (1/4)] else [])) ++
  ([.conv2d 256, .batchNorm, .conv2d 256, .batchNorm, .conv2d 256, .batchNorm,
      .maxPool] ++
    (if bayesian then [.alwaysDropout (1/4)] else [])) ++
  ([.flatten, .dense 1024, .batchNorm] ++
    (if bayesian then [.alwaysDropout (1/4)] else []) ++
    [.dense 1024, .batchNorm, .denseSoftmax num_classes])

/-- C8: `AlwaysDropout.call` ignores its `training` argument entirely;
it applies dropout exactly when the rate lies strictly between `0` and
`1` and otherwise returns its inputs unchanged; and the model stack
contains an `AlwaysDropout` layer if and only if the `bayesian` flag is
set. -/
theorem alwaysDropout_spec :
    (∀ (α : Type) (rate : ℚ) (inputs : α) (tr₁ tr₂ : Option Bool),
      AlwaysDropout.call rate inputs tr₁ = AlwaysDropout.call rate inputs tr₂) ∧
    (∀ (α : Type) (rate : ℚ) (inputs : α) (tr : Option Bool),
      (0 < rate ∧ rate < 1 →
        AlwaysDropout.call rate inputs tr = DropoutResult.dropped inputs rate) ∧
      (¬(0 < rate ∧ rate < 1) →
        AlwaysDropout.call rate inputs tr = DropoutResult.unchanged inputs)) ∧
    (∀ (bayesian : Bool) (nc : ℕ),
      (∃ r, Layer.alwaysDropout r ∈ create_model bayesian nc) ↔ bayesian = true) := by
  refine ⟨fun α rate inputs tr₁ tr₂ => rfl, fun α rate inputs tr => ⟨?_, ?_⟩, ?_⟩
  · intro h
    unfold AlwaysDropout.call
    rw [if_pos h]
  · intro h
    unfold AlwaysDropout.call
    rw [if_neg h]
  · intro bayesian nc
    cases bayesian with
    | false =>
      simp [create_model]
    | true =>
      refine ⟨fun _ => rfl, fun _ => ⟨1/4, ?_⟩⟩
      simp [create_model]

/-- C8 (witness): the three parts of the statement at concrete inputs —
the call at rate `1/2` is insensitive to the training flag and applies
dropout, the call at rate `2` passes its inputs through, and the model
stack contains an `AlwaysDropout` layer exactly when built with
`bayesian = true`. -/
theorem alwaysDropout_spec_witness :
    AlwaysDropout.call (1/2) (0 : ℚ) none =
      AlwaysDropout.call (1/2) (0 : ℚ) (some true) ∧
    AlwaysDropout.call (1/2) (0 : ℚ) none = DropoutResult.dropped 0 (1/2) ∧
    AlwaysDropout.call (2 : ℚ) (0 : ℚ) (some false) = DropoutResult.unchanged 0 ∧
    (∃ r, Layer.alwaysDropout r ∈ create_model true 4) ∧
    ¬(∃ r, Layer.alwaysDropout r ∈ create_model false 4) :=
  ⟨alwaysDropout_spec.1 ℚ (1/2) 0 none (some true),
    (alwaysDropout_spec.2.1 ℚ (1/2) 0 none).1 (by norm_num),
    (alwaysDropout_spec.2.1 ℚ 2 0 (some false)).2 (by norm_num),
    (alwaysDropout_spec.2.2 true 4).mpr rfl,
    fun h => Bool.false_ne_true ((alwaysDropout_spec.2.2 false 4).mp h)⟩

/-- The weight-restoring guard of `Model.train` (newModel.py line 150):
`self.config.model_tuning and self.config.mode != 'supervised' and
os.path.isdir(self.config.model_path)`.  The existence check's outcome is
passed in as a boolean. -/
def shouldLoadWeights (model_tuning : Bool) (mode : String)
    (model_path_isdir : Bool) : Bool :=
  model_tuning && !(mode == ("supervised")) && model_path_isdir

/-- The path the weights are restored from (newModel.py line 151). -/
def weightsLoadPath (model_path : String) : String :=
  model_path ++ ("/weights")

/-- C7: weights are loaded iff tuning is enabled, the mode is not
`supervised`, and the directory-existence check on the model path passes;
in particular a failing existence check means no load is attempted,
whatever the other settings. -/
theorem weight_load_guard :
    (∀ (t : Bool) (mode : String) (d : Bool),
      shouldLoadWeights t mode d = true ↔
        (t = true ∧ mode ≠ ("supervised") ∧ d = true)) ∧
    (∀ (t : Bool) (mode : String), shouldLoadWeights t mode false = false) := by
  constructor
  · intro t mode d
    unfold shouldLoadWeights
    constructor
    · intro h
      have h1 := (Bool.and_eq_true _ _).mp h
      have h2 := (Bool.and_eq_true _ _).mp h1.1
      refine ⟨h2.1, ?_, h1.2⟩
      intro hmode
      rw [hmode] at h2
      simp at h2
    · rintro ⟨ht, hmode, hd⟩
      rw [ht, hd]
      simp [hmode]
  · intro t mode
    unfold shouldLoadWeights
    simp

/-- C7 (witness): in mode `active` with tuning on, the load happens iff
the existence check passes. -/
theorem weight_load_guard_witness :
    shouldLoadWeights true ("active") true = true ∧
    shouldLoadWeights true ("active") false = false :=
  ⟨(weight_load_guard.1 true ("active") true).mpr ⟨rfl, by decide, rfl⟩,
    weight_load_guard.2 true ("active")⟩

/-- The path the training history is pickled to (newModel.py line 169):
`'/History/' + experiment`. -/
def historyFilePath (experiment : String) : String :=
  ("/History/") ++ experiment

/-- A POSIX path is relative iff it does not start with `/`. -/
def isRelativePath (p : String) : Bool :=
  match p.data with
  | [] => true
  | c :: _ => !(c == ('/' : Char))

/-- `Model.train`'s final persistence step (newModel.py lines 169-170):
the history record is serialised and written to the history path for the
experiment; modelled as the pair of the destination path and the record. -/
def trainPersist (history : List (ℚ × ℚ)) (experiment : String) :
    String × List (ℚ × ℚ) :=
  (historyFilePath experiment, history)

/-- C6 (counterexample): the history path for experiment `"0"` is
`/History/0`, which begins with `/` and is therefore an absolute path,
not a relative one. -/
theorem historyFilePath_not_relative :
    historyFilePath ("0") = ("/History/0") ∧
    isRelativePath (historyFilePath ("0")) = false := by
  constructor
  · rfl
  · rfl

/-- C6 (amended): after training, the pickled history is written to the
fixed *absolute* path `'/History/' + experiment`, composed from the
experiment string. -/
theorem train_history_path_absolute (history : List (ℚ × ℚ))
    (experiment : String) :
    trainPersist history experiment =
      (("/History/") ++ experiment, history) ∧
    isRelativePath (historyFilePath experiment) = false := by
  constructor
  · rfl
  · unfold isRelativePath historyFilePath
    rw [String.data_append]
    rfl

/-- The configuration fields `Model.__init__` and `create_model` read
(newModel.py lines 12-27, 69-106). -/
structure ModelConfig where
  input_height : ℕ
  input_width : ℕ
  input_channels : ℕ
  num_classes : ℕ
  verbose : Bool
  bayesian : Bool
  learning_rate : ℚ
  rho : ℚ
  epsilon : ℚ
  decay : ℚ
deriving DecidableEq

/-- The TensorFlow default graph, modelled as the list of layer
operations registered in it. -/
abbrev TFGraph : Type := List Layer

/-- `tf.reset_default_graph()` (newModel.py lines 18 and 36): the default
graph is emptied. -/
def tf.reset_default_graph (_ : TFGraph) : TFGraph := ([] : List Layer)

/-- A compiled Keras model: its layer stack and its (framework-owned)
weights. -/
structure KerasModel where
  layers : List Layer
  weights : List ℚ
deriving DecidableEq

/-- The framework's fresh weight initialisation for a layer stack; the
claims only need that it is a function of the stack alone, never of any
previously trained weights. -/
def freshWeights (layers : List Layer) : List ℚ :=
  layers.map (fun _ => 0)

/-- The `Model` object state set up by `Model.__init__`
(newModel.py lines 12-29). -/
structure Model where
  input_shape : List ℕ
  num_classes : ℕ
  verbose : Bool
  config : ModelConfig
  model : KerasModel
deriving DecidableEq

/-- `Model.__init__` (newModel.py lines 12-29): resets the default
graph, stores the configuration, and builds a freshly initialised
compiled model whose layers populate the graph. -/
def Model.init (graph : TFGraph) (config : ModelConfig) : TFGraph × Model :=
  let layers := create_model config.bayesian config.num_classes
  (tf.reset_default_graph graph ++ layers,
    { input_shape := [config.input_height, config.input_width, config.input_channels]
      num_classes := config.num_classes
      verbose := config.verbose
      config := config
      model := { layers := layers, weights := freshWeights layers } })

/-- `Model.__copy__` (newModel.py lines 31-37): resets the default graph
and returns `Model(self.config)`. -/
def Model.copy (graph : TFGraph) (m : Model) : TFGraph × Model :=
  Model.init (tf.reset_default_graph graph) m.config

/-- Training mutates the weights of the underlying compiled model in
place; every possible trained instance arises this way. -/
def Model.setWeights (m : Model) (w : List ℚ) : Model :=
  { m with model := { m.model with weights := w } }

/-- C10: `__copy__` builds a new `Model` from the same configuration
after a graph reset: the copy keeps the configuration, its weights are
the fresh initialisation for the configured stack (not the original's),
any trained weights of the original are invisible to the copy, and the
incoming graph contents are irrelevant. -/
theorem model_copy_fresh_weights (graph : TFGraph) (m : Model) :
    (Model.copy graph m).2.config = m.config ∧
    (Model.copy graph m).2.model.weights =
      freshWeights (create_model m.config.bayesian m.config.num_classes) ∧
    (∀ w, Model.copy graph (Model.setWeights m w) = Model.copy graph m) ∧
    (∀ g, Model.copy g m = Model.copy graph m) :=
  ⟨rfl, rfl, fun _ => rfl, fun _ => rfl⟩
